import Mathlib

/-
Shallow embedding of the command-language recognizer of the repository
(Mini_Project.js and its two unnamed variants).  The repository contains
three variants of the same program:

* `Mini_Project.js` (and the reduced variant `src/unnamed/part_001`):
  a regex tokenizer `tokenize` over the pattern \b(\w+\.\w+|\w+)\b and a
  boolean validator `parseCommand`.
* `src/unnamed/part_000`: a DFA-driven tokenizer (splitting on whitespace,
  throwing on illegal transitions, appending an EOF token) and an LL(1)
  parser driven by a mutable `PARSING_TABLE`.

Both variants are embedded below, faithfully to their sources.
-/

/-! ## Token model of Mini_Project.js (TOKEN_TYPES) -/

inductive TokenType where
  | KEYWORD
  | FILENAME
  | TO
deriving DecidableEq, Repr

structure Token where
  type : TokenType
  value : String
deriving DecidableEq, Repr

/-- The classification chain of `tokenize` in Mini_Project.js:
keywords first, then the connector "to", everything else a filename. -/
def classify (value : String) : TokenType :=
  if value = "create" ∨ value = "delete" ∨ value = "exit" ∨
     value = "rename" ∨ value = "copy" then TokenType.KEYWORD
  else if value = "to" then TokenType.TO
  else TokenType.FILENAME

/-! ## The regex scanner of Mini_Project.js

The loop `while ((match = regex.exec(input)) !== null)` over the pattern
`\b(\w+\.\w+|\w+)\b` with the `g` flag scans left to right.  A match starts
at the beginning of a maximal run of word characters (`\w` = ASCII
alphanumeric or underscore); the first alternative consumes that run, a
single dot and the following (non-empty, maximal) run; otherwise the second
alternative consumes the run alone.  The scan resumes right after each
match.  `scanGo` realises exactly this as a single left-to-right pass. -/

def wordChar (c : Char) : Bool := c.isAlphanum || c == '_'

inductive ScanMode where
  | out
  | first (acc : List Char)
  | afterDot (acc : List Char)
  | second (acc1 acc2 : List Char)

def scanGo : ScanMode → List Char → List (List Char)
  | ScanMode.out, [] => []
  | ScanMode.out, c :: cs =>
      if wordChar c then scanGo (ScanMode.first [c]) cs else scanGo ScanMode.out cs
  | ScanMode.first acc, [] => [acc.reverse]
  | ScanMode.first acc, c :: cs =>
      if wordChar c then scanGo (ScanMode.first (c :: acc)) cs
      else if c = '.' then scanGo (ScanMode.afterDot acc) cs
      else acc.reverse :: scanGo ScanMode.out cs
  | ScanMode.afterDot acc, [] => [acc.reverse]
  | ScanMode.afterDot acc, c :: cs =>
      if wordChar c then scanGo (ScanMode.second acc [c]) cs
      else acc.reverse :: scanGo ScanMode.out cs
  | ScanMode.second acc1 acc2, [] => [acc1.reverse ++ '.' :: acc2.reverse]
  | ScanMode.second acc1 acc2, c :: cs =>
      if wordChar c then scanGo (ScanMode.second acc1 (c :: acc2)) cs
      else (acc1.reverse ++ '.' :: acc2.reverse) :: scanGo ScanMode.out cs

def scan (cs : List Char) : List (List Char) := scanGo ScanMode.out cs

/-- `tokenize` of Mini_Project.js: each regex match becomes a token whose
type is computed by the if/else chain (`classify`). -/
def tokenize (input : String) : List Token :=
  (scan input.data).map fun w => { type := classify (String.mk w), value := String.mk w }

/-! ## The validator `parseCommand` of Mini_Project.js -/

def value? (tokens : List Token) (i : Nat) : Option String :=
  (tokens.get? i).map Token.value

def type? (tokens : List Token) (i : Nat) : Option TokenType :=
  (tokens.get? i).map Token.type

/-- The guard of the create/delete branch:
`tokens.length === 3 && tokens[1].value === "file" && tokens[2].type === FILENAME`. -/
def cdShape (tokens : List Token) : Bool :=
  decide (tokens.length = 3) && (value? tokens 1 == some "file")
    && (type? tokens 2 == some TokenType.FILENAME)

/-- The guard of the rename/copy branches:
`tokens.length === 5 && tokens[1].value === "file" && tokens[2].type === FILENAME
 && tokens[3].value === "to" && tokens[4].type === FILENAME`. -/
def shape5 (tokens : List Token) : Bool :=
  decide (tokens.length = 5) && (value? tokens 1 == some "file")
    && (type? tokens 2 == some TokenType.FILENAME)
    && (value? tokens 3 == some "to")
    && (type? tokens 4 == some TokenType.FILENAME)

/-- `parseCommand` of Mini_Project.js: empty input is invalid; `exit` is valid
outright; create/delete need the 3-token shape, rename/copy the 5-token
shape; anything else is invalid. -/
def parseCommand (tokens : List Token) : Bool :=
  match tokens with
  | [] => false
  | firstToken :: _ =>
      if firstToken.value = "exit" then true
      else if (firstToken.value = "create" || firstToken.value = "delete")
              && cdShape tokens then true
      else if (firstToken.value = "rename") && shape5 tokens then true
      else if (firstToken.value = "copy") && shape5 tokens then true
      else false

/-! ## Access-checked validator

`parseCommandChecked` mirrors the JavaScript evaluation of `parseCommand`
step by step: every `tokens[i].value` / `tokens[i].type` member access is a
lookup that fails (JavaScript: throws a TypeError) when the index is out of
range, and `&&` short-circuits in source order.  `none` models a thrown
exception. -/

def cdShapeChecked (tokens : List Token) : Option Bool :=
  if tokens.length = 3 then do
    let t1 ← tokens.get? 1
    if t1.value = "file" then do
      let t2 ← tokens.get? 2
      some (decide (t2.type = TokenType.FILENAME))
    else some false
  else some false

def shape5Checked (tokens : List Token) : Option Bool :=
  if tokens.length = 5 then do
    let t1 ← tokens.get? 1
    if t1.value = "file" then do
      let t2 ← tokens.get? 2
      if t2.type = TokenType.FILENAME then do
        let t3 ← tokens.get? 3
        if t3.value = "to" then do
          let t4 ← tokens.get? 4
          some (decide (t4.type = TokenType.FILENAME))
        else some false
      else some false
    else some false
  else some false

def parseCommandChecked (tokens : List Token) : Option Bool :=
  if tokens.length = 0 then some false
  else do
    let firstToken ← tokens.get? 0
    if firstToken.value = "exit" then some true
    else do
      let b1 ← if firstToken.value = "create" ∨ firstToken.value = "delete" then
                 cdShapeChecked tokens
               else some false
      if b1 then some true
      else do
        let b2 ← if firstToken.value = "rename" then shape5Checked tokens else some false
        if b2 then some true
        else do
          let b3 ← if firstToken.value = "copy" then shape5Checked tokens else some false
          if b3 then some true else some false

/-- Classification consistency: every token carries the type that `tokenize`
computes from its value.  All sequences produced by `tokenize` satisfy it. -/
def wfTokens (tokens : List Token) : Bool :=
  tokens.all fun t => decide (t.type = classify t.value)

/-! ## The part_000 variant: DFA tokenizer and LL(1) parser

Token types of part_000 include the EOF sentinel. -/

inductive TTypeE where
  | KEYWORD
  | FILENAME
  | TO
  | EOF
deriving DecidableEq, Repr

structure TokenE where
  type : TTypeE
  value : String
deriving DecidableEq, Repr

inductive DState where
  | START
  | KEYWORD
  | FILENAME
  | TO
deriving DecidableEq, Repr

/-- `input.split(/\s+/)` of JavaScript: the pieces between maximal
whitespace runs, including an empty leading piece when the input starts
with whitespace and an empty trailing piece when it ends with whitespace;
the empty string yields `[""]`. -/
def isWS (c : Char) : Bool := c == ' ' || c == '\t' || c == '\n' || c == '\r'

def wsGo : Option (List Char) → List Char → List (List Char)
  | some acc, [] => [acc.reverse]
  | none, [] => [[]]
  | some acc, c :: cs =>
      if isWS c then acc.reverse :: wsGo none cs else wsGo (some (c :: acc)) cs
  | none, c :: cs =>
      if isWS c then wsGo none cs else wsGo (some [c]) cs

def wsFields (cs : List Char) : List (List Char) := wsGo (some []) cs

/-- Lookup in the object literal `DFA_TRANSITIONS[START]`: the five command
words map to the KEYWORD state, and the key "default" (written as a plain
property in the source) maps to the FILENAME state. -/
def dfaStartLookup (w : String) : Option DState :=
  if w = "create" ∨ w = "delete" ∨ w = "exit" ∨ w = "copy" ∨ w = "rename" then
    some DState.KEYWORD
  else if w = "default" then some DState.FILENAME
  else none

/-- One iteration of the `for (const word of words)` loop of part_000's
`tokenize`: produce the next state and the token type for `word`, or throw
`Invalid token: <word>` when the DFA moves to the ERROR state. -/
def dfaStep : DState → String → Except String (DState × TTypeE)
  | DState.START, w =>
      match dfaStartLookup w with
      | some st => Except.ok (st, TTypeE.KEYWORD)
      | none => Except.ok (DState.FILENAME, TTypeE.FILENAME)
  | DState.KEYWORD, w =>
      if w = "file" then Except.ok (DState.START, TTypeE.KEYWORD)
      else Except.error ("Invalid token: " ++ w)
  | DState.FILENAME, _ => Except.ok (DState.FILENAME, TTypeE.FILENAME)
  | DState.TO, w =>
      if w = "to" then Except.ok (DState.TO, TTypeE.TO)
      else Except.error ("Invalid token: " ++ w)

def tokenizeDFAGo : DState → List String → Except String (List TokenE)
  | _, [] => Except.ok [{ type := TTypeE.EOF, value := "" }]
  | st, w :: ws => do
      let (st2, ty) ← dfaStep st w
      let rest ← tokenizeDFAGo st2 ws
      Except.ok ({ type := ty, value := w } :: rest)

/-- `tokenize` of part_000: split on whitespace, run the DFA over the
words, and append the `{type: EOF, value: ""}` sentinel. -/
def tokenizeDFA (input : String) : Except String (List TokenE) :=
  tokenizeDFAGo DState.START ((wsFields input.data).map String.mk)

/-! ### The LL(1) parser of part_000

`PARSING_TABLE` is a mutable object: `stack.push(...production.reverse())`
reverses each production array **in place** before spreading it onto the
stack.  The table is therefore part of the parser state; `keyedProd`
returns the production in the order the stack processes it together with
the table in which that entry has been reversed. -/

structure PTable where
  cCreate : List String
  cDelete : List String
  cCopy : List String
  cRename : List String
  cExit : List String
  fFile : List String
  wWord : List String
deriving DecidableEq, Repr

def initTable : PTable :=
  { cCreate := ["create", "file", "Filename"]
    cDelete := ["delete", "file", "Filename"]
    cCopy := ["copy", "file", "Filename", "to", "Filename"]
    cRename := ["rename", "file", "Filename", "to", "Filename"]
    cExit := ["exit"]
    fFile := ["Word"]
    wWord := ["FILENAME"] }

def ttypeName : TTypeE → String
  | TTypeE.KEYWORD => "KEYWORD"
  | TTypeE.FILENAME => "FILENAME"
  | TTypeE.TO => "TO"
  | TTypeE.EOF => "EOF"

def keyedProd (tbl : PTable) (top : String) (k : String) :
    Option (List String × PTable) :=
  if top = "Command" then
    if k = "create" then some (tbl.cCreate, { tbl with cCreate := tbl.cCreate.reverse })
    else if k = "delete" then some (tbl.cDelete, { tbl with cDelete := tbl.cDelete.reverse })
    else if k = "copy" then some (tbl.cCopy, { tbl with cCopy := tbl.cCopy.reverse })
    else if k = "rename" then some (tbl.cRename, { tbl with cRename := tbl.cRename.reverse })
    else if k = "exit" then some (tbl.cExit, { tbl with cExit := tbl.cExit.reverse })
    else none
  else if top = "Filename" then
    if k = "FILENAME" then some (tbl.fFile, { tbl with fFile := tbl.fFile.reverse })
    else none
  else if top = "Word" then
    if k = "FILENAME" then some (tbl.wWord, { tbl with wWord := tbl.wWord.reverse })
    else none
  else none

/-- `PARSING_TABLE[top][currentToken.value] || PARSING_TABLE[top][currentToken.type]`. -/
def prodLookup (tbl : PTable) (top : String) (tok : TokenE) :
    Option (List String × PTable) :=
  match keyedProd tbl top tok.value with
  | some r => some r
  | none => keyedProd tbl top (ttypeName tok.type)

def isNonTerminal (top : String) : Bool :=
  top == "Command" || top == "Filename" || top == "Word"

/-- The `while (stack.length > 0)` loop of part_000's `parseCommand`.
The JavaScript array stack (pop from the end) is modelled as a head-top
list; pushing the spread of the in-place-reversed production makes the
stack process the stored production front to back while the stored entry
ends up reversed.  Reading `tokens[index]` past the end of the array throws
a TypeError in JavaScript; this, the two `Syntax error` throws, and fuel
exhaustion are the `Except.error` cases. -/
def parseLLGo : Nat → PTable → List String → List TokenE → Nat →
    Except String (Bool × PTable)
  | 0, _, _, _, _ => Except.error "out of fuel"
  | _ + 1, tbl, [], _, _ => Except.ok (true, tbl)
  | fuel + 1, tbl, top :: stk, toks, i =>
      match toks.get? i with
      | none => Except.error "TypeError: cannot read properties of undefined"
      | some tok =>
          if isNonTerminal top then
            match prodLookup tbl top tok with
            | none => Except.error ("Syntax error: Unexpected token " ++ tok.value)
            | some (prod, tbl2) => parseLLGo fuel tbl2 (prod ++ stk) toks i
          else
            if top = tok.value ∨ top = ttypeName tok.type then
              parseLLGo fuel tbl stk toks (i + 1)
            else
              Except.error ("Syntax error: Expected " ++ top ++ ", found " ++ tok.value)

/-- `parseCommand` of part_000, with the parsing table passed explicitly so
that the in-place mutation of `PARSING_TABLE` is visible in the result.
The fuel bound 100 is far above the number of loop iterations any of the
fixed productions can generate on the inputs considered here. -/
def parseCommandLL (tbl : PTable) (toks : List TokenE) : Except String (Bool × PTable) :=
  parseLLGo 100 tbl ["Command"] toks 0

/-! ## Helper lemmas -/

theorem tokenize_classify (s : String) (t : Token) (h : t ∈ tokenize s) :
    t.type = classify t.value := by
  rcases List.mem_map.mp h with ⟨w, _, rfl⟩
  rfl

theorem tokenize_wf (s : String) : wfTokens (tokenize s) = true := by
  simp only [wfTokens, List.all_eq_true, decide_eq_true_eq]
  exact fun t ht => tokenize_classify s t ht

theorem scanGo_first_append (w : List Char) (hw : ∀ c ∈ w, wordChar c = true) :
    ∀ acc r, scanGo (ScanMode.first acc) (w ++ r) = scanGo (ScanMode.first (w.reverse ++ acc)) r := by
  induction w with
  | nil => intro acc r; simp
  | cons c cs ih =>
      intro acc r
      have hc : wordChar c = true := hw c (List.mem_cons_self c cs)
      have hcs : ∀ x ∈ cs, wordChar x = true := fun x hx => hw x (List.mem_cons_of_mem c hx)
      simp only [List.cons_append, scanGo, hc, if_true, List.append_eq]
      rw [ih hcs]
      simp

theorem scanGo_second_append (w : List Char) (hw : ∀ c ∈ w, wordChar c = true) :
    ∀ acc1 acc2 r, scanGo (ScanMode.second acc1 acc2) (w ++ r) =
      scanGo (ScanMode.second acc1 (w.reverse ++ acc2)) r := by
  induction w with
  | nil => intro acc1 acc2 r; simp
  | cons c cs ih =>
      intro acc1 acc2 r
      have hc : wordChar c = true := hw c (List.mem_cons_self c cs)
      have hcs : ∀ x ∈ cs, wordChar x = true := fun x hx => hw x (List.mem_cons_of_mem c hx)
      simp only [List.cons_append, scanGo, hc, if_true, List.append_eq]
      rw [ih hcs]
      simp

theorem dfaStep_no_eof (st : DState) (w : String) (p : DState × TTypeE)
    (h : dfaStep st w = Except.ok p) : p.2 ≠ TTypeE.EOF := by
  cases st
  · simp only [dfaStep] at h
    cases hl : dfaStartLookup w <;> rw [hl] at h <;>
      injection h with h <;> subst h <;> simp
  · simp only [dfaStep] at h
    by_cases hw : w = "file" <;> simp [hw] at h
    rw [← h]; simp
  · simp only [dfaStep] at h
    injection h with h; subst h; simp
  · simp only [dfaStep] at h
    by_cases hw : w = "to" <;> simp [hw] at h
    rw [← h]; simp

theorem tokenizeDFAGo_eof (ws : List String) : ∀ (st : DState) (ts : List TokenE),
    tokenizeDFAGo st ws = Except.ok ts →
    ∃ pre, ts = pre ++ [⟨TTypeE.EOF, ""⟩] ∧ ∀ t ∈ pre, t.type ≠ TTypeE.EOF := by
  induction ws with
  | nil =>
      intro st ts h
      simp only [tokenizeDFAGo] at h
      injection h with h
      exact ⟨[], by simp [← h]⟩
  | cons w ws ih =>
      intro st ts h
      simp only [tokenizeDFAGo] at h
      cases hs : dfaStep st w with
      | error e => rw [hs] at h; simp [Bind.bind, Except.bind] at h
      | ok p =>
          rw [hs] at h
          simp only [Bind.bind, Except.bind] at h
          cases hr : tokenizeDFAGo p.1 ws with
          | error e => rw [hr] at h; simp [Bind.bind, Except.bind] at h
          | ok rest =>
              rw [hr] at h
              simp only [Bind.bind, Except.bind] at h
              injection h with h
              rcases ih p.1 rest hr with ⟨pre, hpre, hall⟩
              refine ⟨{ type := p.2, value := w } :: pre, ?_, ?_⟩
              · rw [← h, hpre]; rfl
              · intro t ht
                rcases List.mem_cons.mp ht with rfl | ht
                · exact dfaStep_no_eof st w p hs
                · exact hall t ht

theorem cdShapeChecked_eq (tokens : List Token) :
    cdShapeChecked tokens = some (cdShape tokens) := by
  by_cases h3 : tokens.length = 3
  · rcases List.length_eq_three.mp h3 with ⟨a, b, c, rfl⟩
    by_cases hb : b.value = "file"
    · simp [cdShapeChecked, cdShape, value?, type?, hb]
      rfl
    · simp [cdShapeChecked, cdShape, value?, type?, hb]
  · simp [cdShapeChecked, cdShape, h3]

theorem shape5Checked_eq (tokens : List Token) :
    shape5Checked tokens = some (shape5 tokens) := by
  by_cases h5 : tokens.length = 5
  · rcases tokens with _ | ⟨a, _ | ⟨b, _ | ⟨c, _ | ⟨d, _ | ⟨e, tl⟩⟩⟩⟩⟩ <;>
      simp only [List.length_cons, List.length_nil] at h5 <;> try omega
    have htl : tl = [] := List.eq_nil_of_length_eq_zero (by omega)
    subst htl
    by_cases hb : b.value = "file"
    · by_cases hc : c.type = TokenType.FILENAME
      · by_cases hd : d.value = "to"
        · simp [shape5Checked, shape5, value?, type?, hb, hc, hd]
          rfl
        · simp [shape5Checked, shape5, value?, type?, hb, hc, hd]
      · simp [shape5Checked, shape5, value?, type?, hb, hc]
    · simp [shape5Checked, shape5, value?, type?, hb]
  · simp [shape5Checked, shape5, h5]

theorem parseCommandChecked_eq (tokens : List Token) :
    parseCommandChecked tokens = some (parseCommand tokens) := by
  rcases tokens with _ | ⟨t, rest⟩
  · rfl
  · by_cases he : t.value = "exit"
    · simp [parseCommandChecked, parseCommand, he]
    · by_cases h1 : t.value = "create"
      · simp only [parseCommandChecked, parseCommand,
          cdShapeChecked_eq, shape5Checked_eq]
        by_cases hs : cdShape (t :: rest) <;> simp [hs, he, h1, Bind.bind]
      · by_cases h2 : t.value = "delete"
        · simp only [parseCommandChecked, parseCommand,
            cdShapeChecked_eq, shape5Checked_eq]
          by_cases hs : cdShape (t :: rest) <;> simp [hs, he, h1, h2, Bind.bind]
        · by_cases h4 : t.value = "rename"
          · simp only [parseCommandChecked, parseCommand,
              cdShapeChecked_eq, shape5Checked_eq]
            by_cases hs : shape5 (t :: rest) <;> simp [hs, he, h1, h2, h4, Bind.bind]
          · by_cases h5 : t.value = "copy"
            · simp only [parseCommandChecked, parseCommand,
                cdShapeChecked_eq, shape5Checked_eq]
              by_cases hs : shape5 (t :: rest) <;> simp [hs, he, h1, h2, h4, h5, Bind.bind]
            · simp [parseCommandChecked, parseCommand, he, h1, h2, h4, h5, Bind.bind]

/-! ## Claims -/

/-- C5: for every token sequence whose first token's text is "exit", the
validator `parseCommand` of Mini_Project.js returns valid, regardless of any
trailing tokens after "exit".  (The boolean `true` is the code's entire
verdict; the caller derives kind and operands from the token list, and for
"exit" it uses none of them.) -/
theorem exit_always_valid (t0 : Token) (rest : List Token) (h : t0.value = "exit") :
    parseCommand (t0 :: rest) = true := by
  simp [parseCommand, h]

theorem exit_always_valid_witness :
    parseCommand [{ type := TokenType.KEYWORD, value := "exit" },
      { type := TokenType.FILENAME, value := "junk" }] = true :=
  exit_always_valid { type := TokenType.KEYWORD, value := "exit" }
    [{ type := TokenType.FILENAME, value := "junk" }] rfl

/-- C3 (counterexample): the DFA tokenizer of part_000 throws on
"create report.txt" — a word other than "file" right after a keyword moves
the DFA to the ERROR state — so the repository's tokenizers do not all
defer rejection to the validator. -/
theorem dfa_tokenizer_throws :
    tokenizeDFA "create report.txt" = Except.error "Invalid token: report.txt" := rfl

/-- C3 (amended): the regex tokenizer of Mini_Project.js/part_001 never
signals an error; every word that is not one of the five keywords and not
"to" becomes a FILENAME token.  The DFA tokenizer of part_000, however, can
throw (see `dfa_tokenizer_throws`). -/
theorem regex_tokenizer_unrecognized_filename (s : String) (t : Token)
    (h : t ∈ tokenize s)
    (hk : ¬(t.value = "create" ∨ t.value = "delete" ∨ t.value = "exit" ∨
            t.value = "rename" ∨ t.value = "copy"))
    (ht : ¬t.value = "to") :
    t.type = TokenType.FILENAME := by
  have hc := tokenize_classify s t h
  rw [hc]
  simp [classify, hk, ht]

theorem regex_tokenizer_unrecognized_filename_witness :
    ({ type := TokenType.FILENAME, value := "launch" } : Token) ∈ tokenize "launch file a.txt" ∧
    ({ type := TokenType.FILENAME, value := "launch" } : Token).type = TokenType.FILENAME :=
  ⟨by decide, regex_tokenizer_unrecognized_filename "launch file a.txt"
    { type := TokenType.FILENAME, value := "launch" } (by decide) (by decide) (by decide)⟩

/-- C4 (counterexample): the tokenizer of Mini_Project.js appends no
EndOfInput token at all — empty input yields the empty sequence, not a
sequence containing only EndOfInput — and the part_000 tokenizer turns the
empty input into an empty-text FILENAME token followed by EOF, because
splitting the empty string on whitespace yields one empty word. -/
theorem tokenizer_eof_counterexample :
    tokenize "" = [] ∧
    tokenizeDFA "" =
      Except.ok [{ type := TTypeE.FILENAME, value := "" },
        { type := TTypeE.EOF, value := "" }] :=
  ⟨rfl, rfl⟩

/-- C4 (amended): in the part_000 variant — the only variant with an
EndOfInput token — every successful tokenization ends with exactly one EOF
token with empty text (no earlier token has type EOF).  Mini_Project.js
emits no EndOfInput marker, and part_000's empty input does not produce a
sequence containing only EOF (see `tokenizer_eof_counterexample`). -/
theorem dfa_success_ends_with_single_eof (s : String) (ts : List TokenE)
    (h : tokenizeDFA s = Except.ok ts) :
    ∃ pre, ts = pre ++ [{ type := TTypeE.EOF, value := "" }] ∧
      ∀ t ∈ pre, t.type ≠ TTypeE.EOF :=
  tokenizeDFAGo_eof _ _ _ h

theorem dfa_success_ends_with_single_eof_witness :
    ∃ pre, ([{ type := TTypeE.KEYWORD, value := "create" },
        { type := TTypeE.KEYWORD, value := "file" },
        { type := TTypeE.FILENAME, value := "x" },
        { type := TTypeE.EOF, value := "" }] : List TokenE) =
      pre ++ [{ type := TTypeE.EOF, value := "" }] ∧
      ∀ t ∈ pre, t.type ≠ TTypeE.EOF :=
  dfa_success_ends_with_single_eof "create file x"
    [{ type := TTypeE.KEYWORD, value := "create" },
     { type := TTypeE.KEYWORD, value := "file" },
     { type := TTypeE.FILENAME, value := "x" },
     { type := TTypeE.EOF, value := "" }] rfl

/-- C6: the LL(1) parser of part_000 is not stateless.
`stack.push(...production.reverse())` reverses the production array stored
in `PARSING_TABLE` in place, so the table is mutated by every parse: on the
token sequence of "create file a.txt" a first call returns true and leaves
the Command/create production reversed, and a second call on the identical
token sequence throws "Syntax error: Unexpected token create". -/
theorem parsing_table_mutation_bug :
    (tokenizeDFA "create file a.txt" =
      Except.ok [{ type := TTypeE.KEYWORD, value := "create" },
        { type := TTypeE.KEYWORD, value := "file" },
        { type := TTypeE.FILENAME, value := "a.txt" },
        { type := TTypeE.EOF, value := "" }]) ∧
    (parseCommandLL initTable
        [{ type := TTypeE.KEYWORD, value := "create" },
         { type := TTypeE.KEYWORD, value := "file" },
         { type := TTypeE.FILENAME, value := "a.txt" },
         { type := TTypeE.EOF, value := "" }] =
      Except.ok (true, { initTable with cCreate := ["Filename", "file", "create"] })) ∧
    (parseCommandLL { initTable with cCreate := ["Filename", "file", "create"] }
        [{ type := TTypeE.KEYWORD, value := "create" },
         { type := TTypeE.KEYWORD, value := "file" },
         { type := TTypeE.FILENAME, value := "a.txt" },
         { type := TTypeE.EOF, value := "" }] =
      Except.error "Syntax error: Unexpected token create") :=
  ⟨rfl, rfl, rfl⟩

/-- C7 (counterexample): for the input "create report.txt" — missing the
"file" marker — the Mini_Project.js validator rejects with the bare boolean
`false`, carrying no Command value and no reason string, and in the
part_000 variant the input is rejected by the tokenizer with the reason
"Invalid token: report.txt", which names the offending word rather than the
missing marker. -/
theorem no_reason_for_missing_file_marker :
    parseCommand (tokenize "create report.txt") = false ∧
    tokenizeDFA "create report.txt" = Except.error "Invalid token: report.txt" :=
  ⟨rfl, rfl⟩

/-- C7 (amended): the Mini_Project.js validator returns only a boolean
verdict — in particular, any two-token sequence starting with "create"
(such as the tokens of "create report.txt") is rejected with `false` and no
accompanying reason. -/
theorem validator_returns_bare_boolean (t0 t1 : Token) (h : t0.value = "create") :
    parseCommand [t0, t1] = false ∧ parseCommand (tokenize "create report.txt") = false := by
  constructor
  · simp [parseCommand, h, cdShape, shape5, value?, type?]
  · rfl

theorem validator_returns_bare_boolean_witness :
    parseCommand [{ type := TokenType.KEYWORD, value := "create" },
      { type := TokenType.FILENAME, value := "report.txt" }] = false ∧
    parseCommand (tokenize "create report.txt") = false :=
  validator_returns_bare_boolean { type := TokenType.KEYWORD, value := "create" }
    { type := TokenType.FILENAME, value := "report.txt" } rfl

/-- C8 (counterexample): the DFA tokenizer of part_000 types the word
"file" after a keyword as KEYWORD, not FILENAME — the marker is recognised
(and enforced) by that tokenizer, not left to the validator. -/
theorem dfa_tokenizer_types_file_keyword :
    tokenizeDFA "create file x" =
      Except.ok [{ type := TTypeE.KEYWORD, value := "create" },
        { type := TTypeE.KEYWORD, value := "file" },
        { type := TTypeE.FILENAME, value := "x" },
        { type := TTypeE.EOF, value := "" }] := rfl

/-- C8 (amended): the regex tokenizer of Mini_Project.js classifies every
word by priority — the five keywords to KEYWORD, then "to" to TO, and
everything else (including the literal word "file", in every position) to
FILENAME.  The part_000 DFA tokenizer deviates
(see `dfa_tokenizer_types_file_keyword`). -/
theorem tokenizer_priority_classification (s : String) (t : Token) (h : t ∈ tokenize s) :
    t.type =
      (if t.value = "create" ∨ t.value = "delete" ∨ t.value = "exit" ∨
          t.value = "rename" ∨ t.value = "copy" then TokenType.KEYWORD
       else if t.value = "to" then TokenType.TO
       else TokenType.FILENAME) :=
  tokenize_classify s t h

theorem tokenizer_priority_classification_witness :
    ({ type := TokenType.FILENAME, value := "file" } : Token) ∈ tokenize "create file x" ∧
    ({ type := TokenType.FILENAME, value := "file" } : Token).type =
      (if ("file" : String) = "create" ∨ ("file" : String) = "delete" ∨
          ("file" : String) = "exit" ∨ ("file" : String) = "rename" ∨
          ("file" : String) = "copy" then TokenType.KEYWORD
       else if ("file" : String) = "to" then TokenType.TO
       else TokenType.FILENAME) :=
  ⟨by decide, tokenizer_priority_classification "create file x"
    { type := TokenType.FILENAME, value := "file" } (by decide)⟩

/-- C9: composing the Mini_Project.js tokenizer and validator is total:
for every input string the access-checked evaluation of `parseCommand`
(where reading past the end of the token array is a failure, as in
JavaScript) succeeds and returns the boolean verdict — the length guards
short-circuit every `tokens[i]` member access, so validation never reads
past the end and never throws. -/
theorem tokenize_parse_total (s : String) :
    parseCommandChecked (tokenize s) = some (parseCommand (tokenize s)) :=
  parseCommandChecked_eq (tokenize s)

/-- C1 (counterexample): the LL(1) parser of part_000 accepts the token
sequence of "create file x y" — an extra FILENAME token before the EOF
marker — because its stack empties after the production
Command to create file Filename is consumed and the remaining tokens are
never examined; so it is not the case that every validator of the
repository accepts only the exact 3-token-plus-end-marker shape. -/
theorem ll_accepts_extra_token_after_create :
    (tokenizeDFA "create file x y" =
      Except.ok [{ type := TTypeE.KEYWORD, value := "create" },
        { type := TTypeE.KEYWORD, value := "file" },
        { type := TTypeE.FILENAME, value := "x" },
        { type := TTypeE.FILENAME, value := "y" },
        { type := TTypeE.EOF, value := "" }]) ∧
    (parseCommandLL initTable
        [{ type := TTypeE.KEYWORD, value := "create" },
         { type := TTypeE.KEYWORD, value := "file" },
         { type := TTypeE.FILENAME, value := "x" },
         { type := TTypeE.FILENAME, value := "y" },
         { type := TTypeE.EOF, value := "" }] =
      Except.ok (true, { initTable with cCreate := ["Filename", "file", "create"] })) :=
  ⟨rfl, rfl⟩

/-- C1 (amended): for the Mini_Project.js / part_001 validator, which reads
token sequences with no EndOfInput marker, a classification-consistent
sequence whose first token has text "create" or "delete" is accepted iff it
consists of exactly three tokens: the keyword, a token with the literal
text "file", and a FILENAME token.  The part_000 LL(1) parser additionally
accepts sequences with extra trailing tokens
(see `ll_accepts_extra_token_after_create`). -/
theorem create_delete_accept_iff (t0 : Token) (rest : List Token)
    (hwf : wfTokens (t0 :: rest) = true)
    (hv : t0.value = "create" ∨ t0.value = "delete") :
    parseCommand (t0 :: rest) = true ↔
      ∃ name, t0.type = TokenType.KEYWORD ∧
        rest = [{ type := TokenType.FILENAME, value := "file" },
                { type := TokenType.FILENAME, value := name }] := by
  have h0 : t0.type = TokenType.KEYWORD := by
    have hh := List.all_eq_true.mp hwf t0 (List.mem_cons_self t0 rest)
    have hcl : t0.type = classify t0.value := of_decide_eq_true hh
    rcases hv with h | h <;> rw [h] at hcl <;> simpa [classify] using hcl
  constructor
  · intro hacc
    have hcd : cdShape (t0 :: rest) = true := by
      rcases hv with h | h <;> simpa [parseCommand, h] using hacc
    have h3 : (t0 :: rest).length = 3 ∧ value? (t0 :: rest) 1 = some "file" ∧
        type? (t0 :: rest) 2 = some TokenType.FILENAME := by
      simpa [cdShape, Bool.and_eq_true, beq_iff_eq, and_assoc] using hcd
    obtain ⟨hlen, hv1, ht2⟩ := h3
    have hrl : rest.length = 2 := by
      simp only [List.length_cons] at hlen
      omega
    rcases List.length_eq_two.mp hrl with ⟨a, b, rfl⟩
    have hav : a.value = "file" := by
      simpa [value?] using hv1
    have hbt : b.type = TokenType.FILENAME := by
      simpa [type?] using ht2
    have hat : a.type = TokenType.FILENAME := by
      have hh := List.all_eq_true.mp hwf a (by simp)
      have hcl : a.type = classify a.value := of_decide_eq_true hh
      rw [hav] at hcl
      simpa [classify] using hcl
    refine ⟨b.value, h0, ?_⟩
    cases a with
    | mk aty av =>
        cases b with
        | mk bty bv => simp_all
  · rintro ⟨name, hty, rfl⟩
    rcases hv with h | h <;>
      simp [parseCommand, h, cdShape, value?, type?]

theorem create_delete_accept_iff_witness :
    parseCommand [{ type := TokenType.KEYWORD, value := "create" },
      { type := TokenType.FILENAME, value := "file" },
      { type := TokenType.FILENAME, value := "a.txt" }] = true :=
  (create_delete_accept_iff { type := TokenType.KEYWORD, value := "create" }
    [{ type := TokenType.FILENAME, value := "file" },
     { type := TokenType.FILENAME, value := "a.txt" }]
    (by decide) (Or.inl rfl)).mpr ⟨"a.txt", rfl, rfl⟩

/-- C2 (counterexample): the LL(1) parser of part_000 accepts the token
sequence of "copy file a to b c" — six meaningful tokens, with an extra
token after the second filename — because its stack empties after the five
production symbols are consumed; so it is not the case that every validator
of the repository accepts only the exact 5-token shape. -/
theorem ll_accepts_extra_token_after_copy :
    (tokenizeDFA "copy file a to b c" =
      Except.ok [{ type := TTypeE.KEYWORD, value := "copy" },
        { type := TTypeE.KEYWORD, value := "file" },
        { type := TTypeE.FILENAME, value := "a" },
        { type := TTypeE.FILENAME, value := "to" },
        { type := TTypeE.FILENAME, value := "b" },
        { type := TTypeE.FILENAME, value := "c" },
        { type := TTypeE.EOF, value := "" }]) ∧
    (parseCommandLL initTable
        [{ type := TTypeE.KEYWORD, value := "copy" },
         { type := TTypeE.KEYWORD, value := "file" },
         { type := TTypeE.FILENAME, value := "a" },
         { type := TTypeE.FILENAME, value := "to" },
         { type := TTypeE.FILENAME, value := "b" },
         { type := TTypeE.FILENAME, value := "c" },
         { type := TTypeE.EOF, value := "" }] =
      Except.ok (true,
        { initTable with cCopy := ["Filename", "to", "Filename", "file", "copy"] })) :=
  ⟨rfl, rfl⟩

/-- C2 (amended): for the Mini_Project.js validator, a
classification-consistent token sequence whose first token has text "copy"
or "rename" is accepted iff it consists of exactly five tokens — keyword,
literal "file", FILENAME source, the connector "to", FILENAME destination —
and in particular the tokens of "copy file a.txt to" (ending right after
the connector) are rejected.  The part_000 LL(1) parser additionally
accepts sequences with extra trailing tokens
(see `ll_accepts_extra_token_after_copy`). -/
theorem copy_rename_accept_iff (t0 : Token) (rest : List Token)
    (hwf : wfTokens (t0 :: rest) = true)
    (hv : t0.value = "copy" ∨ t0.value = "rename") :
    (parseCommand (t0 :: rest) = true ↔
      ∃ src dst, t0.type = TokenType.KEYWORD ∧
        rest = [{ type := TokenType.FILENAME, value := "file" },
                { type := TokenType.FILENAME, value := src },
                { type := TokenType.TO, value := "to" },
                { type := TokenType.FILENAME, value := dst }]) ∧
    parseCommand (tokenize "copy file a.txt to") = false := by
  refine ⟨?_, rfl⟩
  have h0 : t0.type = TokenType.KEYWORD := by
    have hh := List.all_eq_true.mp hwf t0 (List.mem_cons_self t0 rest)
    have hcl : t0.type = classify t0.value := of_decide_eq_true hh
    rcases hv with h | h <;> rw [h] at hcl <;> simpa [classify] using hcl
  constructor
  · intro hacc
    have hs5 : shape5 (t0 :: rest) = true := by
      rcases hv with h | h <;> simpa [parseCommand, h] using hacc
    have h5 : (t0 :: rest).length = 5 ∧ value? (t0 :: rest) 1 = some "file" ∧
        type? (t0 :: rest) 2 = some TokenType.FILENAME ∧
        value? (t0 :: rest) 3 = some "to" ∧
        type? (t0 :: rest) 4 = some TokenType.FILENAME := by
      simpa [shape5, Bool.and_eq_true, beq_iff_eq, and_assoc] using hs5
    obtain ⟨hlen, hv1, ht2, hv3, ht4⟩ := h5
    rcases rest with _ | ⟨a, _ | ⟨b, _ | ⟨c, _ | ⟨d, tl⟩⟩⟩⟩ <;>
      simp only [List.length_cons, List.length_nil] at hlen <;> try omega
    have htl : tl = [] := List.eq_nil_of_length_eq_zero (by omega)
    subst htl
    have hav : a.value = "file" := by simpa [value?] using hv1
    have hbt : b.type = TokenType.FILENAME := by simpa [type?] using ht2
    have hcv : c.value = "to" := by simpa [value?] using hv3
    have hdt : d.type = TokenType.FILENAME := by simpa [type?] using ht4
    have hat : a.type = TokenType.FILENAME := by
      have hh := List.all_eq_true.mp hwf a (by simp)
      have hcl : a.type = classify a.value := of_decide_eq_true hh
      rw [hav] at hcl
      simpa [classify] using hcl
    have hct : c.type = TokenType.TO := by
      have hh := List.all_eq_true.mp hwf c (by simp)
      have hcl : c.type = classify c.value := of_decide_eq_true hh
      rw [hcv] at hcl
      simpa [classify] using hcl
    refine ⟨b.value, d.value, h0, ?_⟩
    cases a with
    | mk aty av =>
        cases b with
        | mk bty bv =>
            cases c with
            | mk cty cv =>
                cases d with
                | mk dty dv => simp_all
  · rintro ⟨src, dst, hty, rfl⟩
    rcases hv with h | h <;>
      simp [parseCommand, h, shape5, value?, type?]

theorem copy_rename_accept_iff_witness :
    parseCommand [{ type := TokenType.KEYWORD, value := "copy" },
      { type := TokenType.FILENAME, value := "file" },
      { type := TokenType.FILENAME, value := "a.txt" },
      { type := TokenType.TO, value := "to" },
      { type := TokenType.FILENAME, value := "b.txt" }] = true :=
  ((copy_rename_accept_iff { type := TokenType.KEYWORD, value := "copy" }
    [{ type := TokenType.FILENAME, value := "file" },
     { type := TokenType.FILENAME, value := "a.txt" },
     { type := TokenType.TO, value := "to" },
     { type := TokenType.FILENAME, value := "b.txt" }]
    (by decide) (Or.inl rfl)).1).mpr ⟨"a.txt", "b.txt", rfl, rfl⟩

theorem scanGo_word_dot_word (c : Char) (cs : List Char) (d : Char) (ds t : List Char)
    (hc : wordChar c = true) (hcs : ∀ x ∈ cs, wordChar x = true)
    (hd : wordChar d = true) (hds : ∀ x ∈ ds, wordChar x = true) :
    scanGo ScanMode.out (c :: (cs ++ ('.' :: (d :: (ds ++ ('.' :: t)))))) =
      (c :: (cs ++ ('.' :: (d :: ds)))) :: scanGo ScanMode.out t := by
  have hdot : wordChar '.' = false := by decide
  have s1 : scanGo ScanMode.out (c :: (cs ++ ('.' :: (d :: (ds ++ ('.' :: t)))))) =
      scanGo (ScanMode.first [c]) (cs ++ ('.' :: (d :: (ds ++ ('.' :: t))))) := by
    simp [scanGo, hc]
  rw [s1, scanGo_first_append cs hcs]
  have s2 : scanGo (ScanMode.first (cs.reverse ++ [c])) ('.' :: (d :: (ds ++ ('.' :: t)))) =
      scanGo (ScanMode.afterDot (cs.reverse ++ [c])) (d :: (ds ++ ('.' :: t))) := by
    simp [scanGo, hdot]
  rw [s2]
  have s3 : scanGo (ScanMode.afterDot (cs.reverse ++ [c])) (d :: (ds ++ ('.' :: t))) =
      scanGo (ScanMode.second (cs.reverse ++ [c]) [d]) (ds ++ ('.' :: t)) := by
    simp [scanGo, hd]
  rw [s3, scanGo_second_append ds hds]
  have s4 : scanGo (ScanMode.second (cs.reverse ++ [c]) (ds.reverse ++ [d])) ('.' :: t) =
      ((cs.reverse ++ [c]).reverse ++ '.' :: (ds.reverse ++ [d]).reverse) ::
        scanGo ScanMode.out t := by
    simp [scanGo, hdot]
  rw [s4]
  simp

/-- C10: the regex scanner splits a word with more than one interior dot at
the longest word.word prefix: for non-empty all-word-character runs w1 and
w2, the input w1.w2.t is scanned as the single token w1.w2 followed by the
scan of t (the second dot can neither extend the match nor begin one).
Consequently "create file a.b.c" tokenizes to the four word tokens create,
file, a.b, c, and the validator rejects it (four tokens, not three). -/
theorem multi_dot_word_splits (w1 w2 t : List Char)
    (h1 : w1 ≠ []) (hw1 : ∀ c ∈ w1, wordChar c = true)
    (h2 : w2 ≠ []) (hw2 : ∀ c ∈ w2, wordChar c = true) :
    (scan (w1 ++ '.' :: w2 ++ '.' :: t) = (w1 ++ '.' :: w2) :: scan t) ∧
    tokenize "create file a.b.c" =
      [{ type := TokenType.KEYWORD, value := "create" },
       { type := TokenType.FILENAME, value := "file" },
       { type := TokenType.FILENAME, value := "a.b" },
       { type := TokenType.FILENAME, value := "c" }] ∧
    parseCommand (tokenize "create file a.b.c") = false := by
  refine ⟨?_, rfl, rfl⟩
  rcases w1 with _ | ⟨c, cs⟩
  · exact absurd rfl h1
  rcases w2 with _ | ⟨d, ds⟩
  · exact absurd rfl h2
  have hc : wordChar c = true := hw1 c (by simp)
  have hcs : ∀ x ∈ cs, wordChar x = true := fun x hx => hw1 x (by simp [hx])
  have hd : wordChar d = true := hw2 d (by simp)
  have hds : ∀ x ∈ ds, wordChar x = true := fun x hx => hw2 x (by simp [hx])
  have key := scanGo_word_dot_word c cs d ds t hc hcs hd hds
  simp only [scan]
  simpa using key

theorem multi_dot_word_splits_witness :
    (scan (['a'] ++ '.' :: ['b'] ++ '.' :: ['c']) = (['a'] ++ '.' :: ['b']) :: scan ['c']) ∧
    tokenize "create file a.b.c" =
      [{ type := TokenType.KEYWORD, value := "create" },
       { type := TokenType.FILENAME, value := "file" },
       { type := TokenType.FILENAME, value := "a.b" },
       { type := TokenType.FILENAME, value := "c" }] ∧
    parseCommand (tokenize "create file a.b.c") = false :=
  multi_dot_word_splits ['a'] ['b'] ['c'] (by decide) (by decide) (by decide) (by decide)
